import Mathlib

/-!
Verification of cu2t (src/cu2t.c), a UDP-to-TCP bridge.

The program is shallowly embedded: each C function becomes a Lean function
over explicit inputs, with the operating system's responses (results of
send, recv, socket, setsockopt, bind, connect) supplied as an explicit
oracle trace, since the C code treats them as an external black box.
Bytes are modelled as Nat, file descriptors as Nat, and process
termination via exit as a distinguished result constructor carrying the
exit code.
-/

namespace Cu2t

/-- Buffer capacity, from `#define BUF_SIZE 1024` (src/cu2t.c line 32). -/
def BUF_SIZE : Nat := 1024

/-- Exit code used by every fatal path of the program (EXIT_FAILURE). -/
def EXIT_FAILURE : Nat := 1

/-- Errors a send call can report, as distinguished by the program:
`send_or_die` tests only `errno == EINTR`; every other errno value takes
the fatal branch.  `EPIPE` (broken connection) and a catch-all `EOTHER`
are kept separate so that broken-connection behaviour can be discussed. -/
inductive Errno where
  | EINTR
  | EPIPE
  | EOTHER
  deriving DecidableEq, Repr

/-- One response of the transport to one `send(2)` call: either success
with a byte count `w`, or failure with an errno value. -/
inductive SendRes where
  | ok (w : Nat)
  | err (e : Errno)
  deriving DecidableEq, Repr

/-- How a run of `send_or_die` ends when it ends:
`returned sent calls` models normal return after handing the byte list
`sent` to the transport across `calls` send calls; `died fd e code`
models the `fprintf(stderr, "writing to fd %d: %s", ...)`-then-
`exit(EXIT_FAILURE)` branch (src/cu2t.c lines 163-164). -/
inductive Outcome where
  | returned (sent : List Nat) (calls : Nat)
  | died (fd : Nat) (e : Errno) (code : Nat)
  deriving DecidableEq, Repr

/-- Embedding of the loop of `send_or_die` (src/cu2t.c lines 158-169):

    while (len != 0 && (nw = send(fd, buf, len, 0)) != 0) {
        if (nw == -1) {
            if (errno == EINTR) continue;
            else { fprintf(...); exit(EXIT_FAILURE); }
        }
        len -= nw;
        buf += nw;
    }

`buf` is the remaining unsent suffix (the C code advances the pointer and
shrinks `len` together, so the pair is one list here), `acc` the bytes
handed to the transport so far, `calls` the number of send calls made,
and the oracle list holds the transport's response to each send call in
order.  `some` is the run's end; `none` means the oracle ran out while
the loop still needed another send (the writer is still blocked), or an
oracle entry was invalid (a success count larger than the bytes offered,
which POSIX rules out for send).  A success count of 0 exits the loop by
the `nw != 0` test in the condition. -/
def sendOrDieAux (fd : Nat) : List Nat → List Nat → Nat → List SendRes → Option Outcome
  | [], acc, calls, _ => some (.returned acc calls)
  | _ :: _, _, _, [] => none
  | b :: bs, acc, calls, r :: rest =>
    match r with
    | .ok 0 => some (.returned acc (calls + 1))
    | .ok (w + 1) =>
      if w + 1 ≤ (b :: bs).length then
        sendOrDieAux fd ((b :: bs).drop (w + 1)) (acc ++ (b :: bs).take (w + 1)) (calls + 1) rest
      else
        none
    | .err e =>
      if e = .EINTR then
        sendOrDieAux fd (b :: bs) acc (calls + 1) rest
      else
        some (.died fd e EXIT_FAILURE)

/-- Embedding of `void send_or_die(int fd, char *buf, size_t len)`
(src/cu2t.c lines 155-170), started with nothing yet sent. -/
def send_or_die (fd : Nat) (buf : List Nat) (os : List SendRes) : Option Outcome :=
  sendOrDieAux fd buf [] 0 os

/-- An oracle is positive when every successful send in it accepted at
least one byte.  POSIX guarantees this for send with a nonzero length:
a send that accepts nothing either blocks or fails with an errno. -/
def PosOracle (os : List SendRes) : Prop :=
  ∀ w : Nat, SendRes.ok w ∈ os → 1 ≤ w

instance (os : List SendRes) : Decidable (PosOracle os) := by
  unfold PosOracle
  induction os with
  | nil => exact .isTrue (by intro w h; cases h)
  | cons r rest ih =>
    cases ih with
    | isTrue hp =>
      cases r with
      | ok w =>
        cases Nat.decLe 1 w with
        | isTrue hw =>
          exact .isTrue (by
            intro v hv
            rcases List.mem_cons.mp hv with h | h
            · cases SendRes.ok.inj h.symm; exact hw
            · exact hp v h)
        | isFalse hw =>
          exact .isFalse (by intro h; exact hw (h w (List.mem_cons_self _ _)))
      | err e =>
        exact .isTrue (by
          intro v hv
          rcases List.mem_cons.mp hv with h | h
          · cases h
          · exact hp v h)
    | isFalse hp =>
      exact .isFalse (by
        intro h; exact hp (fun v hv => h v (List.mem_cons_of_mem _ hv)))

/-- Outcomes up to the number of send calls made: used to compare runs
that deliver the same bytes through a different number of calls. -/
def stripCalls : Outcome → Outcome
  | .returned s _ => .returned s 0
  | .died fd e code => .died fd e code

lemma sendOrDieAux_returned_eq (fd : Nat) :
    ∀ (os : List SendRes) (buf acc s : List Nat) (c k : Nat),
      PosOracle os → sendOrDieAux fd buf acc c os = some (.returned s k) →
      s = acc ++ buf := by
  intro os
  induction os with
  | nil =>
    intro buf acc s c k _ h
    cases buf with
    | nil =>
      simp only [sendOrDieAux, Option.some.injEq, Outcome.returned.injEq] at h
      simp [h.1]
    | cons b bs =>
      simp only [sendOrDieAux] at h
      cases h
  | cons r rest ih =>
    intro buf acc s c k hpos h
    have hrest : PosOracle rest := fun v hv => hpos v (List.mem_cons_of_mem _ hv)
    cases buf with
    | nil =>
      simp only [sendOrDieAux, Option.some.injEq, Outcome.returned.injEq] at h
      simp [h.1]
    | cons b bs =>
      cases r with
      | ok w =>
        cases w with
        | zero => exact absurd (hpos 0 (List.mem_cons_self _ _)) (by omega)
        | succ w =>
          simp only [sendOrDieAux] at h
          by_cases hw : w + 1 ≤ (b :: bs).length
          · rw [if_pos hw] at h
            rw [ih _ _ _ _ _ hrest h, List.append_assoc, List.take_append_drop]
          · rw [if_neg hw] at h
            cases h
      | err e =>
        by_cases he : e = Errno.EINTR
        · subst he
          simp only [sendOrDieAux, if_pos rfl] at h
          exact ih _ _ _ _ _ hrest h
        · simp only [sendOrDieAux, if_neg he] at h
          cases h

lemma sendOrDieAux_died_shape (fd : Nat) :
    ∀ (os : List SendRes) (buf acc : List Nat) (c f code : Nat) (e : Errno),
      sendOrDieAux fd buf acc c os = some (.died f e code) →
      f = fd ∧ e ≠ Errno.EINTR ∧ code = EXIT_FAILURE := by
  intro os
  induction os with
  | nil =>
    intro buf acc c f code e h
    cases buf with
    | nil => simp only [sendOrDieAux, Option.some.injEq] at h; cases h
    | cons b bs =>
      simp only [sendOrDieAux] at h
      cases h
  | cons r rest ih =>
    intro buf acc c f code e h
    cases buf with
    | nil => simp only [sendOrDieAux, Option.some.injEq] at h; cases h
    | cons b bs =>
      cases r with
      | ok w =>
        cases w with
        | zero => simp only [sendOrDieAux, Option.some.injEq] at h; cases h
        | succ w =>
          simp only [sendOrDieAux] at h
          by_cases hw : w + 1 ≤ (b :: bs).length
          · rw [if_pos hw] at h
            exact ih _ _ _ _ _ _ h
          · rw [if_neg hw] at h
            cases h
      | err e' =>
        by_cases he : e' = Errno.EINTR
        · subst he
          simp only [sendOrDieAux, if_pos rfl] at h
          exact ih _ _ _ _ _ _ h
        · simp only [sendOrDieAux, if_neg he, Option.some.injEq] at h
          obtain ⟨h1, h2, h3⟩ := Outcome.died.inj h.symm
          exact ⟨h1, h2 ▸ he, h3⟩

/-- C1: under the POSIX contract that a successful send with a nonzero
length hands at least one byte to the transport, every run of
`send_or_die` that ends either returns normally having handed exactly
the given bytes (all of them, in order) to the transport, or takes the
diagnostic branch and exits the process with the nonzero code
EXIT_FAILURE; there is no normal return with fewer bytes delivered. -/
theorem send_or_die_all_or_die (fd : Nat) (buf : List Nat) (os : List SendRes)
    (out : Outcome) (hpos : PosOracle os) (h : send_or_die fd buf os = some out) :
    (∃ k, out = .returned buf k) ∨
      ∃ e, e ≠ Errno.EINTR ∧ out = .died fd e EXIT_FAILURE := by
  cases out with
  | returned s k =>
    left
    refine ⟨k, ?_⟩
    have := sendOrDieAux_returned_eq fd os buf [] s 0 k hpos h
    simp only [List.nil_append] at this
    rw [this]
  | died f e code =>
    right
    obtain ⟨h1, h2, h3⟩ := sendOrDieAux_died_shape fd os buf [] 0 f code e h
    exact ⟨e, h2, by rw [h1, h3]⟩

theorem send_or_die_all_or_die_witness :
    (∃ k, Outcome.returned [1, 2, 3] 2 = Outcome.returned [1, 2, 3] k) ∨
      ∃ e, e ≠ Errno.EINTR ∧
        Outcome.returned [1, 2, 3] 2 = Outcome.died 7 e EXIT_FAILURE :=
  send_or_die_all_or_die 7 [1, 2, 3] [.ok 2, .ok 1] (.returned [1, 2, 3] 2)
    (by decide) (by decide)

lemma sendOrDieAux_full (fd : Nat) :
    ∀ (ws : List Nat) (buf acc : List Nat) (c : Nat),
      (∀ w ∈ ws, 1 ≤ w) → ws.sum = buf.length →
      sendOrDieAux fd buf acc c (ws.map SendRes.ok) =
        some (.returned (acc ++ buf) (c + ws.length)) := by
  intro ws
  induction ws with
  | nil =>
    intro buf acc c _ hsum
    have hb : buf = [] := List.eq_nil_of_length_eq_zero hsum.symm
    subst hb
    simp [sendOrDieAux]
  | cons w ws ih =>
    intro buf acc c hpos hsum
    have hw : 1 ≤ w := hpos w (List.mem_cons_self _ _)
    simp only [List.sum_cons] at hsum
    cases buf with
    | nil => simp at hsum; omega
    | cons b bs =>
      obtain ⟨w', rfl⟩ : ∃ w', w = w' + 1 := ⟨w - 1, by omega⟩
      simp only [List.map_cons, sendOrDieAux]
      rw [if_pos (by simp only [List.length_cons] at hsum ⊢; omega)]
      rw [ih _ _ _ (fun v hv => hpos v (List.mem_cons_of_mem _ hv))
        (by simp only [List.length_drop, List.length_cons] at hsum ⊢; omega)]
      rw [List.append_assoc, List.take_append_drop]
      simp only [List.length_cons, Option.some.injEq, Outcome.returned.injEq,
        true_and]
      omega

/-- C4: a byte span delivered across several partial writes arrives
whole: if the transport answers the writer's send calls with positive
acceptance counts that sum to the span's length, `send_or_die` returns
normally having handed exactly the original bytes, in order, with no
duplication and no gap, using one send call per accepted chunk. -/
theorem send_or_die_partial_writes (fd : Nat) (buf : List Nat) (ws : List Nat)
    (hpos : ∀ w ∈ ws, 1 ≤ w) (hsum : ws.sum = buf.length) :
    send_or_die fd buf (ws.map SendRes.ok) =
      some (.returned buf ws.length) := by
  unfold send_or_die
  rw [sendOrDieAux_full fd ws buf [] 0 hpos hsum]
  simp

theorem send_or_die_partial_writes_witness :
    send_or_die 7 [0, 1, 2, 3, 4, 5, 6, 7, 8, 9] ([3, 7].map SendRes.ok) =
      some (.returned [0, 1, 2, 3, 4, 5, 6, 7, 8, 9] 2) :=
  send_or_die_partial_writes 7 [0, 1, 2, 3, 4, 5, 6, 7, 8, 9] [3, 7]
    (by decide) (by decide)

lemma sendOrDieAux_calls_irrel (fd : Nat) :
    ∀ (os : List SendRes) (buf acc : List Nat) (c c' : Nat),
      (sendOrDieAux fd buf acc c os).map stripCalls =
        (sendOrDieAux fd buf acc c' os).map stripCalls := by
  intro os
  induction os with
  | nil =>
    intro buf acc c c'
    cases buf <;> simp [sendOrDieAux, stripCalls]
  | cons r rest ih =>
    intro buf acc c c'
    cases buf with
    | nil => simp [sendOrDieAux, stripCalls]
    | cons b bs =>
      cases r with
      | ok w =>
        cases w with
        | zero => simp [sendOrDieAux, stripCalls]
        | succ w =>
          simp only [sendOrDieAux]
          by_cases hw : w + 1 ≤ (b :: bs).length
          · rw [if_pos hw, if_pos hw]
            exact ih _ _ _ _
          · rw [if_neg hw, if_neg hw]
      | err e =>
        by_cases he : e = Errno.EINTR
        · subst he
          simp only [sendOrDieAux, if_pos rfl]
          exact ih _ _ _ _
        · simp only [sendOrDieAux, if_neg he]

lemma sendOrDieAux_eintr_insert (fd : Nat) :
    ∀ (os₁ : List SendRes) (os₂ : List SendRes) (buf acc : List Nat) (c : Nat),
      (sendOrDieAux fd buf acc c (os₁ ++ SendRes.err Errno.EINTR :: os₂)).map stripCalls =
        (sendOrDieAux fd buf acc c (os₁ ++ os₂)).map stripCalls := by
  intro os₁
  induction os₁ with
  | nil =>
    intro os₂ buf acc c
    cases buf with
    | nil => simp [sendOrDieAux]
    | cons b bs =>
      simp only [List.nil_append, sendOrDieAux, if_pos rfl]
      exact sendOrDieAux_calls_irrel fd os₂ _ _ _ _
  | cons r rest ih =>
    intro os₂ buf acc c
    cases buf with
    | nil => simp [sendOrDieAux]
    | cons b bs =>
      cases r with
      | ok w =>
        cases w with
        | zero => simp [sendOrDieAux]
        | succ w =>
          simp only [List.cons_append, sendOrDieAux]
          by_cases hw : w + 1 ≤ (b :: bs).length
          · rw [if_pos hw, if_pos hw]
            exact ih _ _ _ _
          · rw [if_neg hw, if_neg hw]
      | err e =>
        by_cases he : e = Errno.EINTR
        · subst he
          simp only [List.cons_append, sendOrDieAux, if_pos rfl]
          exact ih _ _ _ _
        · simp only [List.cons_append, sendOrDieAux, if_neg he]

/-- C5: a transient interruption is invisible.  First conjunct: on
EINTR the loop reissues the very same write — same remaining suffix,
same accumulated bytes — consuming only the failed attempt.  Second
conjunct: a run whose oracle contains an extra EINTR answer anywhere
ends with exactly the same delivered bytes and the same outcome (up to
the count of send calls) as the run without the interruption: no data
loss and no duplication. -/
theorem send_or_die_eintr_transparent :
    (∀ (fd b : Nat) (bs acc : List Nat) (c : Nat) (os : List SendRes),
        sendOrDieAux fd (b :: bs) acc c (SendRes.err Errno.EINTR :: os) =
          sendOrDieAux fd (b :: bs) acc (c + 1) os) ∧
    (∀ (fd : Nat) (buf : List Nat) (os₁ os₂ : List SendRes),
        (send_or_die fd buf (os₁ ++ SendRes.err Errno.EINTR :: os₂)).map stripCalls =
          (send_or_die fd buf (os₁ ++ os₂)).map stripCalls) := by
  constructor
  · intro fd b bs acc c os
    simp [sendOrDieAux]
  · intro fd buf os₁ os₂
    exact sendOrDieAux_eintr_insert fd os₁ os₂ buf [] 0

/-- One response of the OS to one `recv(udp, buf, BUF_SIZE, 0)` call
(src/cu2t.c line 51): failure (recv returns -1), or delivery of a
datagram with byte content `d` (the call itself stores at most
`BUF_SIZE` bytes, truncating longer datagrams). -/
inductive RecvRes where
  | err
  | ok (d : List Nat)
  deriving DecidableEq, Repr

/-- State threaded through main's forward loop (src/cu2t.c lines 50-59):
`buf` models the transfer buffer `char buf[BUF_SIZE]`, whose contents
past the last receive's length are stale leftovers of earlier
iterations; `calls` records, in order, the byte span (first `n` bytes
of the buffer) passed to each `send_or_die(tcp, buf, n)` call; and
`recvErrs` counts the `perror("main recv()")` diagnostics emitted. -/
structure LoopState where
  buf : List Nat
  calls : List (List Nat)
  recvErrs : Nat
  deriving DecidableEq, Repr

/-- One iteration of the `while (1)` loop in main (src/cu2t.c lines
50-59): a failed receive emits a diagnostic and continues; a received
datagram is written into the front of the buffer (rest of the buffer
unchanged) and the loop passes the first `n` bytes of the buffer to the
writer, `n` being the receive's return value. -/
def mainLoopStep (s : LoopState) : RecvRes → LoopState
  | .err => { s with recvErrs := s.recvErrs + 1 }
  | .ok d =>
    let recvd := d.take BUF_SIZE
    let buf' := recvd ++ s.buf.drop recvd.length
    { buf := buf'
      calls := s.calls ++ [buf'.take recvd.length]
      recvErrs := s.recvErrs }

/-- The forward loop of main run over a finite prefix of the endless
receive trace. -/
def mainLoop : LoopState → List RecvRes → LoopState
  | s, [] => s
  | s, r :: rs => mainLoop (mainLoopStep s r) rs

/-- The datagram contents (truncated at buffer capacity) of the
successful receives of a trace, in order — what the bridge is supposed
to forward. -/
def forwardedOf : List RecvRes → List (List Nat)
  | [] => []
  | .err :: rs => forwardedOf rs
  | .ok d :: rs => d.take BUF_SIZE :: forwardedOf rs

/-- Number of failed receives in a trace. -/
def errCount : List RecvRes → Nat
  | [] => 0
  | .err :: rs => errCount rs + 1
  | .ok _ :: rs => errCount rs

/-- Transfer-buffer contents after a trace. -/
def bufAfter : List Nat → List RecvRes → List Nat
  | b, [] => b
  | b, .err :: rs => bufAfter b rs
  | b, .ok d :: rs => bufAfter (d.take BUF_SIZE ++ b.drop (d.take BUF_SIZE).length) rs

lemma mainLoop_calls :
    ∀ (rs : List RecvRes) (s : LoopState),
      (mainLoop s rs).calls = s.calls ++ forwardedOf rs := by
  intro rs
  induction rs with
  | nil => intro s; simp [mainLoop, forwardedOf]
  | cons r rest ih =>
    intro s
    cases r with
    | err => simp [mainLoop, mainLoopStep, ih, forwardedOf]
    | ok d =>
      simp [mainLoop, mainLoopStep, ih, forwardedOf, List.take_left,
        List.append_assoc]

lemma mainLoop_recvErrs :
    ∀ (rs : List RecvRes) (s : LoopState),
      (mainLoop s rs).recvErrs = s.recvErrs + errCount rs := by
  intro rs
  induction rs with
  | nil => intro s; simp [mainLoop, errCount]
  | cons r rest ih =>
    intro s
    cases r with
    | err => simp [mainLoop, mainLoopStep, ih, errCount]; omega
    | ok d => simp [mainLoop, mainLoopStep, ih, errCount]

lemma mainLoop_buf :
    ∀ (rs : List RecvRes) (s : LoopState),
      (mainLoop s rs).buf = bufAfter s.buf rs := by
  intro rs
  induction rs with
  | nil => intro s; simp [mainLoop, bufAfter]
  | cons r rest ih =>
    intro s
    cases r with
    | err => simp [mainLoop, mainLoopStep, ih, bufAfter]
    | ok d => simp [mainLoop, mainLoopStep, ih, bufAfter]

lemma forwardedOf_append (rs₁ rs₂ : List RecvRes) :
    forwardedOf (rs₁ ++ rs₂) = forwardedOf rs₁ ++ forwardedOf rs₂ := by
  induction rs₁ with
  | nil => simp [forwardedOf]
  | cons r rest ih =>
    cases r <;> simp [forwardedOf, ih]

lemma errCount_append (rs₁ rs₂ : List RecvRes) :
    errCount (rs₁ ++ rs₂) = errCount rs₁ + errCount rs₂ := by
  induction rs₁ with
  | nil => simp [errCount]
  | cons r rest ih =>
    cases r with
    | err => simp [errCount, ih]; omega
    | ok d => simp [errCount, ih]

/-- C6: in every iteration whose receive succeeds, the span handed to
`send_or_die` is exactly the received datagram's bytes (truncated at
buffer capacity) — even though the loop passes a first-n-bytes view of
the reused transfer buffer, the stale bytes beyond index n never reach
the writer, and datagrams reach the TCP writer in arrival order. -/
theorem mainLoop_forwards_exactly_received (s : LoopState) (rs : List RecvRes) :
    (mainLoop s rs).calls = s.calls ++ forwardedOf rs :=
  mainLoop_calls rs s

/-- C7: zero-length writes and empty datagrams are harmless.  First
conjunct: `send_or_die` with an empty span returns at once having made
no send call at all, whatever the transport would have answered.
Second conjunct: an empty datagram anywhere in the receive trace adds
no bytes to the TCP stream and changes no diagnostics, and the
remaining trace is still processed exactly as before — the loop
neither stalls nor misforwards the next datagram. -/
theorem zero_length_noop :
    (∀ (fd : Nat) (os : List SendRes),
        send_or_die fd [] os = some (.returned [] 0)) ∧
    (∀ (s : LoopState) (rs₁ rs₂ : List RecvRes),
        ((mainLoop s (rs₁ ++ RecvRes.ok [] :: rs₂)).calls).flatten =
          ((mainLoop s (rs₁ ++ rs₂)).calls).flatten ∧
        (mainLoop s (rs₁ ++ RecvRes.ok [] :: rs₂)).recvErrs =
          (mainLoop s (rs₁ ++ rs₂)).recvErrs) := by
  constructor
  · intro fd os
    simp [send_or_die, sendOrDieAux]
  · intro s rs₁ rs₂
    constructor
    · rw [mainLoop_calls, mainLoop_calls]
      simp [forwardedOf_append, forwardedOf]
    · rw [mainLoop_recvErrs, mainLoop_recvErrs]
      simp [errCount_append, errCount]

/-- C8: a failed receive is non-fatal and writer-free: an error answer
anywhere in the receive trace leaves the spans handed to the writer and
the buffer contents exactly as without it, adds exactly one
`perror("main recv()")` diagnostic, and the rest of the trace is still
processed — the loop never exits on a receive error. -/
theorem recv_error_nonfatal (s : LoopState) (rs₁ rs₂ : List RecvRes) :
    (mainLoop s (rs₁ ++ RecvRes.err :: rs₂)).calls =
      (mainLoop s (rs₁ ++ rs₂)).calls ∧
    (mainLoop s (rs₁ ++ RecvRes.err :: rs₂)).buf =
      (mainLoop s (rs₁ ++ rs₂)).buf ∧
    (mainLoop s (rs₁ ++ RecvRes.err :: rs₂)).recvErrs =
      (mainLoop s (rs₁ ++ rs₂)).recvErrs + 1 := by
  refine ⟨?_, ?_, ?_⟩
  · rw [mainLoop_calls, mainLoop_calls]
    simp [forwardedOf_append, forwardedOf]
  · rw [mainLoop_buf, mainLoop_buf]
    generalize s.buf = b
    induction rs₁ generalizing b with
    | nil => simp [bufAfter]
    | cons r rest ih =>
      cases r <;> simp [bufAfter, ih]
  · rw [mainLoop_recvErrs, mainLoop_recvErrs]
    simp [errCount_append, errCount]
    omega

/-- OS behaviour for one candidate address in `bind_udp_sock`
(src/cu2t.c lines 95-114): whether the socket(2), setsockopt(2) and
bind(2) calls for this candidate succeed. -/
structure UdpTrial where
  socketOk : Bool
  setsockoptOk : Bool
  bindOk : Bool
  deriving DecidableEq, Repr

/-- OS behaviour for one candidate address in `connect_tcp_sock`
(src/cu2t.c lines 132-144): whether socket(2) and connect(2) succeed. -/
structure TcpTrial where
  socketOk : Bool
  connectOk : Bool
  deriving DecidableEq, Repr

/-- Kernel-side descriptor bookkeeping: the next descriptor number a
successful socket(2) call returns, and the descriptors currently open
in the process. -/
structure FdState where
  nextFd : Nat
  openFds : List Nat
  deriving DecidableEq, Repr

/-- End of a candidate-iteration attacher: an attached socket, or the
exhaustion path carrying the stderr diagnostic and the exit code of the
`fprintf`-then-`exit(EXIT_FAILURE)` epilogue (src/cu2t.c lines 116-119
and 146-149). -/
inductive AttachResult where
  | ok (fd : Nat) (st : FdState)
  | fatal (msg : String) (code : Nat) (st : FdState)
  deriving DecidableEq, Repr

/-- Embedding of `int bind_udp_sock(char *host, char *port)`
(src/cu2t.c lines 88-123), with the resolved candidate list represented
by the OS behaviour of each candidate's calls.  Mirrors the source
exactly: a failed socket(2) continues; a failed setsockopt(2) continues
WITHOUT closing fd (lines 104-107 have no close call); a successful
bind(2) breaks out with the socket; a failed bind(2) closes fd and
continues (line 113); an exhausted list is fatal with a diagnostic
naming host and port. -/
def bind_udp_sock (host port : String) : FdState → List UdpTrial → AttachResult
  | st, [] => .fatal ("Could not bind " ++ host ++ ":" ++ port) EXIT_FAILURE st
  | st, t :: rest =>
    if t.socketOk then
      let fd := st.nextFd
      let st' : FdState := ⟨fd + 1, fd :: st.openFds⟩
      if t.setsockoptOk then
        if t.bindOk then
          .ok fd st'
        else
          bind_udp_sock host port ⟨st'.nextFd, st'.openFds.erase fd⟩ rest
      else
        bind_udp_sock host port st' rest
    else
      bind_udp_sock host port st rest

/-- Embedding of `int connect_tcp_sock(char *host, char *port)`
(src/cu2t.c lines 125-153): a failed socket(2) continues; a successful
connect(2) breaks out with the socket; a failed connect(2) closes fd
and continues (line 143); an exhausted list is fatal with a diagnostic
naming host and port. -/
def connect_tcp_sock (host port : String) : FdState → List TcpTrial → AttachResult
  | st, [] => .fatal ("Could not connect " ++ host ++ ":" ++ port) EXIT_FAILURE st
  | st, t :: rest =>
    if t.socketOk then
      let fd := st.nextFd
      let st' : FdState := ⟨fd + 1, fd :: st.openFds⟩
      if t.connectOk then
        .ok fd st'
      else
        connect_tcp_sock host port ⟨st'.nextFd, st'.openFds.erase fd⟩ rest
    else
      connect_tcp_sock host port st rest

/-- A UDP candidate fails when any of its three calls fails. -/
def UdpTrial.fails (t : UdpTrial) : Bool :=
  !(t.socketOk && t.setsockoptOk && t.bindOk)

/-- A TCP candidate fails when either of its two calls fails. -/
def TcpTrial.fails (t : TcpTrial) : Bool :=
  !(t.socketOk && t.connectOk)

lemma bind_udp_sock_exhaust (host port : String) :
    ∀ (ts : List UdpTrial) (st : FdState),
      (∀ t ∈ ts, t.fails = true) →
      ∃ st', bind_udp_sock host port st ts =
        .fatal ("Could not bind " ++ host ++ ":" ++ port) EXIT_FAILURE st' := by
  intro ts
  induction ts with
  | nil => intro st _; exact ⟨st, rfl⟩
  | cons t rest ih =>
    intro st hall
    have ht := hall t (List.mem_cons_self _ _)
    have hrest : ∀ u ∈ rest, u.fails = true :=
      fun u hu => hall u (List.mem_cons_of_mem _ hu)
    rcases t with ⟨s1, s2, s3⟩
    cases s1 with
    | false => simpa [bind_udp_sock] using ih _ hrest
    | true =>
      cases s2 with
      | false => simpa [bind_udp_sock] using ih _ hrest
      | true =>
        cases s3 with
        | false => simpa [bind_udp_sock] using ih _ hrest
        | true => simp [UdpTrial.fails] at ht

lemma connect_tcp_sock_exhaust (host port : String) :
    ∀ (ts : List TcpTrial) (st : FdState),
      (∀ t ∈ ts, t.fails = true) →
      ∃ st', connect_tcp_sock host port st ts =
        .fatal ("Could not connect " ++ host ++ ":" ++ port) EXIT_FAILURE st' := by
  intro ts
  induction ts with
  | nil => intro st _; exact ⟨st, rfl⟩
  | cons t rest ih =>
    intro st hall
    have ht := hall t (List.mem_cons_self _ _)
    have hrest : ∀ u ∈ rest, u.fails = true :=
      fun u hu => hall u (List.mem_cons_of_mem _ hu)
    rcases t with ⟨s1, s2⟩
    cases s1 with
    | false => simpa [connect_tcp_sock] using ih _ hrest
    | true =>
      cases s2 with
      | false => simpa [connect_tcp_sock] using ih _ hrest
      | true => simp [TcpTrial.fails] at ht

lemma bind_udp_sock_early_stop (host port : String) :
    ∀ (pre : List UdpTrial) (st : FdState) (t : UdpTrial) (post : List UdpTrial),
      (∀ u ∈ pre, u.fails = true) → t.fails = false →
      bind_udp_sock host port st (pre ++ t :: post) =
        bind_udp_sock host port st (pre ++ [t]) ∧
      ∃ fd st', bind_udp_sock host port st (pre ++ t :: post) = .ok fd st' := by
  intro pre
  induction pre with
  | nil =>
    intro st t post _ ht
    rcases t with ⟨s1, s2, s3⟩
    simp only [UdpTrial.fails, Bool.not_eq_false', Bool.and_eq_true] at ht
    obtain ⟨⟨h1, h2⟩, h3⟩ := ht
    subst h1; subst h2; subst h3
    refine ⟨by simp [bind_udp_sock], ?_⟩
    exact ⟨st.nextFd, ⟨st.nextFd + 1, st.nextFd :: st.openFds⟩,
      by simp [bind_udp_sock]⟩
  | cons u pre ih =>
    intro st t post hall ht
    have hu := hall u (List.mem_cons_self _ _)
    have hpre : ∀ v ∈ pre, v.fails = true :=
      fun v hv => hall v (List.mem_cons_of_mem _ hv)
    rcases u with ⟨s1, s2, s3⟩
    cases s1 with
    | false => simpa [bind_udp_sock] using ih _ t post hpre ht
    | true =>
      cases s2 with
      | false => simpa [bind_udp_sock] using ih _ t post hpre ht
      | true =>
        cases s3 with
        | false => simpa [bind_udp_sock] using ih _ t post hpre ht
        | true => simp [UdpTrial.fails] at hu

lemma connect_tcp_sock_early_stop (host port : String) :
    ∀ (pre : List TcpTrial) (st : FdState) (t : TcpTrial) (post : List TcpTrial),
      (∀ u ∈ pre, u.fails = true) → t.fails = false →
      connect_tcp_sock host port st (pre ++ t :: post) =
        connect_tcp_sock host port st (pre ++ [t]) ∧
      ∃ fd st', connect_tcp_sock host port st (pre ++ t :: post) = .ok fd st' := by
  intro pre
  induction pre with
  | nil =>
    intro st t post _ ht
    rcases t with ⟨s1, s2⟩
    simp only [TcpTrial.fails, Bool.not_eq_false', Bool.and_eq_true] at ht
    obtain ⟨h1, h2⟩ := ht
    subst h1; subst h2
    refine ⟨by simp [connect_tcp_sock], ?_⟩
    exact ⟨st.nextFd, ⟨st.nextFd + 1, st.nextFd :: st.openFds⟩,
      by simp [connect_tcp_sock]⟩
  | cons u pre ih =>
    intro st t post hall ht
    have hu := hall u (List.mem_cons_self _ _)
    have hpre : ∀ v ∈ pre, v.fails = true :=
      fun v hv => hall v (List.mem_cons_of_mem _ hv)
    rcases u with ⟨s1, s2⟩
    cases s1 with
    | false => simpa [connect_tcp_sock] using ih _ t post hpre ht
    | true =>
      cases s2 with
      | false => simpa [connect_tcp_sock] using ih _ t post hpre ht
      | true => simp [TcpTrial.fails] at hu

/-- C9: for both attachers, exhausting the candidate list is fatal with
a diagnostic naming host and port and the nonzero exit code
EXIT_FAILURE; and as soon as one candidate succeeds the iteration stops
— the result over the full list is the result over the list truncated
right after the first success, and it is an attached socket. -/
theorem attach_exhaust_fatal_and_stop_on_success :
    (∀ (host port : String) (st : FdState) (ts : List UdpTrial),
        (∀ t ∈ ts, t.fails = true) →
        ∃ st', bind_udp_sock host port st ts =
          .fatal ("Could not bind " ++ host ++ ":" ++ port) EXIT_FAILURE st') ∧
    (∀ (host port : String) (st : FdState) (ts : List TcpTrial),
        (∀ t ∈ ts, t.fails = true) →
        ∃ st', connect_tcp_sock host port st ts =
          .fatal ("Could not connect " ++ host ++ ":" ++ port) EXIT_FAILURE st') ∧
    EXIT_FAILURE ≠ 0 ∧
    (∀ (host port : String) (st : FdState) (pre : List UdpTrial) (t : UdpTrial)
        (post : List UdpTrial),
        (∀ u ∈ pre, u.fails = true) → t.fails = false →
        bind_udp_sock host port st (pre ++ t :: post) =
          bind_udp_sock host port st (pre ++ [t]) ∧
        ∃ fd st', bind_udp_sock host port st (pre ++ t :: post) = .ok fd st') ∧
    (∀ (host port : String) (st : FdState) (pre : List TcpTrial) (t : TcpTrial)
        (post : List TcpTrial),
        (∀ u ∈ pre, u.fails = true) → t.fails = false →
        connect_tcp_sock host port st (pre ++ t :: post) =
          connect_tcp_sock host port st (pre ++ [t]) ∧
        ∃ fd st', connect_tcp_sock host port st (pre ++ t :: post) = .ok fd st') :=
  ⟨fun host port st ts h => bind_udp_sock_exhaust host port ts st h,
   fun host port st ts h => connect_tcp_sock_exhaust host port ts st h,
   by decide,
   fun host port st pre t post h1 h2 =>
     bind_udp_sock_early_stop host port pre st t post h1 h2,
   fun host port st pre t post h1 h2 =>
     connect_tcp_sock_early_stop host port pre st t post h1 h2⟩

theorem attach_exhaust_fatal_and_stop_on_success_witness :
    (∃ st', bind_udp_sock "h" "p" ⟨0, []⟩ [⟨true, false, true⟩] =
      .fatal ("Could not bind " ++ "h" ++ ":" ++ "p") EXIT_FAILURE st') ∧
    (∃ st', connect_tcp_sock "h" "p" ⟨0, []⟩ [⟨false, true⟩] =
      .fatal ("Could not connect " ++ "h" ++ ":" ++ "p") EXIT_FAILURE st') ∧
    (bind_udp_sock "h" "p" ⟨0, []⟩
        ([⟨true, true, false⟩] ++ ⟨true, true, true⟩ :: [⟨true, true, true⟩]) =
      bind_udp_sock "h" "p" ⟨0, []⟩ ([⟨true, true, false⟩] ++ [⟨true, true, true⟩]) ∧
      ∃ fd st', bind_udp_sock "h" "p" ⟨0, []⟩
        ([⟨true, true, false⟩] ++ ⟨true, true, true⟩ :: [⟨true, true, true⟩]) =
          .ok fd st') ∧
    (connect_tcp_sock "h" "p" ⟨0, []⟩
        ([⟨true, false⟩] ++ ⟨true, true⟩ :: [⟨true, true⟩]) =
      connect_tcp_sock "h" "p" ⟨0, []⟩ ([⟨true, false⟩] ++ [⟨true, true⟩]) ∧
      ∃ fd st', connect_tcp_sock "h" "p" ⟨0, []⟩
        ([⟨true, false⟩] ++ ⟨true, true⟩ :: [⟨true, true⟩]) = .ok fd st') :=
  ⟨attach_exhaust_fatal_and_stop_on_success.1 "h" "p" ⟨0, []⟩
      [⟨true, false, true⟩] (by decide),
   attach_exhaust_fatal_and_stop_on_success.2.1 "h" "p" ⟨0, []⟩
      [⟨false, true⟩] (by decide),
   attach_exhaust_fatal_and_stop_on_success.2.2.2.1 "h" "p" ⟨0, []⟩
      [⟨true, true, false⟩] ⟨true, true, true⟩ [⟨true, true, true⟩]
      (by decide) (by decide),
   attach_exhaust_fatal_and_stop_on_success.2.2.2.2 "h" "p" ⟨0, []⟩
      [⟨true, false⟩] ⟨true, true⟩ [⟨true, true⟩] (by decide) (by decide)⟩

/-- C2 fails on the code: when setsockopt fails for a candidate in
`bind_udp_sock`, the loop continues to the next candidate WITHOUT
closing the socket it created (src/cu2t.c lines 102-107 have no close
call, unlike the failed-bind path at line 113 and the failed-connect
path at line 143).  Starting with no open descriptors and candidates
whose first trial fails at setsockopt, the attach succeeds on the
second candidate with descriptor 4 while descriptor 3 — created for the
failed first candidate — is still open.  The second conjunct shows the
contrast: `connect_tcp_sock` in the same situation releases the failed
candidate's socket. -/
theorem bind_udp_sock_leaks_fd_on_setsockopt_failure :
    (bind_udp_sock "h" "p" ⟨3, []⟩ [⟨true, false, true⟩, ⟨true, true, true⟩] =
      .ok 4 ⟨5, [4, 3]⟩) ∧
    (connect_tcp_sock "h" "p" ⟨3, []⟩ [⟨true, false⟩, ⟨true, true⟩] =
      .ok 4 ⟨5, [4]⟩) := by
  constructor
  · rfl
  · rfl

/-- Flags word passed to every send call the program makes:
`send(fd, buf, len, 0)` (src/cu2t.c line 158). -/
def sendFlagsUsed : Nat := 0

/-- Linux value of the per-call flag that suppresses SIGPIPE for one
send call and makes a broken connection come back as the EPIPE error. -/
def MSG_NOSIGNAL : Nat := 16384

/-- Signal-relevant configuration a process establishes: whether it
changed the disposition of SIGPIPE away from the default (terminate
the process), and whether its send calls pass MSG_NOSIGNAL. -/
structure SigConfig where
  sigpipeIgnored : Bool
  msgNoSignal : Bool
  deriving DecidableEq, Repr

/-- Configuration established by cu2t: main (src/cu2t.c lines 40-62)
and the rest of the program contain no signal or sigaction call, so
SIGPIPE keeps its default process-terminating disposition, and the
writer's send calls pass `sendFlagsUsed`, in which the MSG_NOSIGNAL
bit is clear. -/
def cu2tSigConfig : SigConfig :=
  { sigpipeIgnored := false
    msgNoSignal := decide (sendFlagsUsed / MSG_NOSIGNAL % 2 = 1) }

/-- The two ways a send call on a connection whose peer has gone away
can surface, per POSIX: as an ordinary -1/EPIPE error return when
SIGPIPE cannot be delivered as a default-action signal (disposition
ignored, or MSG_NOSIGNAL set), and otherwise as delivery of SIGPIPE,
whose default action terminates the process. -/
inductive BrokenPipeOutcome where
  | errorReturn
  | killedBySignal
  deriving DecidableEq, Repr

/-- POSIX delivery rule for a send call hitting a broken connection
under signal configuration `cfg`. -/
def brokenPipeDelivery (cfg : SigConfig) : BrokenPipeOutcome :=
  if cfg.sigpipeIgnored || cfg.msgNoSignal then .errorReturn else .killedBySignal

/-- How a `send_or_die` call whose send hits a broken connection ends
the process. -/
inductive WriterFate where
  | diagnosticThenExit (fd : Nat) (code : Nat)
  | killedBySignal
  deriving DecidableEq, Repr

/-- Fate of `send_or_die` on descriptor `fd` when its send call hits a
broken connection, under signal configuration `cfg`: if the error is
surfaced as a return value, errno is EPIPE — not EINTR — so the writer
takes its deterministic diagnostic-then-exit branch (src/cu2t.c lines
162-165, mirrored by `sendOrDieAux` on `Errno.EPIPE`); if the signal
is delivered instead, the process dies asynchronously before any of
the writer's error handling runs. -/
def writerFateOnBrokenPipe (cfg : SigConfig) (fd : Nat) : WriterFate :=
  match brokenPipeDelivery cfg with
  | .errorReturn => .diagnosticThenExit fd EXIT_FAILURE
  | .killedBySignal => .killedBySignal

/-- C3 fails on the code: cu2t never ignores SIGPIPE and never passes
MSG_NOSIGNAL (the send flags are 0 and no signal-disposition call
exists anywhere in src/cu2t.c — the file's own TODO at line 17 still
lists "handle signals"), so on a broken connection the process is
killed asynchronously by the signal; the writer's diagnostic-then-exit
error path, which the claim says handles this case, is never reached. -/
theorem cu2t_sigpipe_not_suppressed :
    ∀ fd : Nat,
      writerFateOnBrokenPipe cu2tSigConfig fd = .killedBySignal ∧
      writerFateOnBrokenPipe cu2tSigConfig fd ≠
        .diagnosticThenExit fd EXIT_FAILURE := by
  intro fd
  constructor
  · rfl
  · intro h
    simp [writerFateOnBrokenPipe, brokenPipeDelivery, cu2tSigConfig,
      sendFlagsUsed, MSG_NOSIGNAL] at h

/-- Memory-level embedding of `send_or_die` (src/cu2t.c lines 155-170):
`mem` is the caller's byte memory, `ptr` the current value of the `buf`
pointer (an index into `mem`), `len` the remaining length.  Each
successful send hands the first `w` bytes of the window
`(mem.drop ptr).take len` to the transport; the body contains no store
through `buf` — it only reads the window and advances `ptr`/`len` — so
every branch passes `mem` through and returns it alongside the
outcome. -/
def sendOrDieMemAux (fd : Nat) (mem : List Nat) :
    Nat → Nat → List Nat → Nat → List SendRes → Option (Outcome × List Nat)
  | _, 0, acc, calls, _ => some (.returned acc calls, mem)
  | _, _ + 1, _, _, [] => none
  | ptr, len + 1, acc, calls, r :: rest =>
    match r with
    | .ok 0 => some (.returned acc (calls + 1), mem)
    | .ok (w + 1) =>
      if w + 1 ≤ len + 1 then
        sendOrDieMemAux fd mem (ptr + (w + 1)) (len - w)
          (acc ++ ((mem.drop ptr).take (len + 1)).take (w + 1)) (calls + 1) rest
      else
        none
    | .err e =>
      if e = .EINTR then
        sendOrDieMemAux fd mem ptr (len + 1) acc (calls + 1) rest
      else
        some (.died fd e EXIT_FAILURE, mem)

/-- A `send_or_die(fd, buf, len)` call where `buf` points at offset
`ptr` of memory `mem`. -/
def send_or_die_mem (fd : Nat) (mem : List Nat) (ptr len : Nat)
    (os : List SendRes) : Option (Outcome × List Nat) :=
  sendOrDieMemAux fd mem ptr len [] 0 os

lemma sendOrDieMemAux_frame (fd : Nat) (mem : List Nat) :
    ∀ (os : List SendRes) (ptr len : Nat) (acc : List Nat) (c : Nat)
      (out : Outcome) (mem' : List Nat),
      sendOrDieMemAux fd mem ptr len acc c os = some (out, mem') →
      mem' = mem := by
  intro os
  induction os with
  | nil =>
    intro ptr len acc c out mem' h
    cases len with
    | zero =>
      simp only [sendOrDieMemAux, Option.some.injEq, Prod.mk.injEq] at h
      exact h.2.symm
    | succ len =>
      simp only [sendOrDieMemAux] at h
      cases h
  | cons r rest ih =>
    intro ptr len acc c out mem' h
    cases len with
    | zero =>
      simp only [sendOrDieMemAux, Option.some.injEq, Prod.mk.injEq] at h
      exact h.2.symm
    | succ len =>
      cases r with
      | ok w =>
        cases w with
        | zero =>
          simp only [sendOrDieMemAux, Option.some.injEq, Prod.mk.injEq] at h
          exact h.2.symm
        | succ w =>
          simp only [sendOrDieMemAux] at h
          by_cases hw : w + 1 ≤ len + 1
          · rw [if_pos hw] at h
            exact ih _ _ _ _ _ _ h
          · rw [if_neg hw] at h
            cases h
      | err e =>
        by_cases he : e = Errno.EINTR
        · subst he
          simp only [sendOrDieMemAux, if_pos rfl] at h
          exact ih _ _ _ _ _ _ h
        · simp only [sendOrDieMemAux, if_neg he, Option.some.injEq,
            Prod.mk.injEq] at h
          exact h.2.symm

lemma sendOrDieMemAux_agrees (fd : Nat) (mem : List Nat) :
    ∀ (os : List SendRes) (ptr len : Nat) (acc : List Nat) (c : Nat),
      ptr + len ≤ mem.length →
      sendOrDieMemAux fd mem ptr len acc c os =
        (sendOrDieAux fd ((mem.drop ptr).take len) acc c os).map
          (fun o => (o, mem)) := by
  intro os
  induction os with
  | nil =>
    intro ptr len acc c hlen
    cases len with
    | zero => simp [sendOrDieMemAux, sendOrDieAux]
    | succ len =>
      have hW : ((mem.drop ptr).take (len + 1)).length = len + 1 := by
        simp only [List.length_take, List.length_drop]
        omega
      cases hcons : (mem.drop ptr).take (len + 1) with
      | nil => rw [hcons] at hW; simp at hW
      | cons b bs =>
        simp [sendOrDieMemAux, sendOrDieAux]
  | cons r rest ih =>
    intro ptr len acc c hlen
    cases len with
    | zero => simp [sendOrDieMemAux, sendOrDieAux]
    | succ len =>
      have hW : ((mem.drop ptr).take (len + 1)).length = len + 1 := by
        simp only [List.length_take, List.length_drop]
        omega
      cases hcons : (mem.drop ptr).take (len + 1) with
      | nil => rw [hcons] at hW; simp at hW
      | cons b bs =>
        have hlb : (b :: bs).length = len + 1 := by rw [← hcons]; exact hW
        cases r with
        | ok w =>
          cases w with
          | zero =>
            simp [sendOrDieMemAux, sendOrDieAux]
          | succ w =>
            simp only [sendOrDieMemAux, sendOrDieAux]
            simp only [hcons]
            by_cases hw : w + 1 ≤ len + 1
            · have hw' : w + 1 ≤ (b :: bs).length := by rw [hlb]; exact hw
              rw [if_pos hw, if_pos hw']
              rw [ih (ptr + (w + 1)) (len - w) _ _ (by omega)]
              have hdrop : (b :: bs).drop (w + 1) =
                  (mem.drop (ptr + (w + 1))).take (len - w) := by
                rw [← hcons, List.drop_take, List.drop_drop]
                congr 1
                omega
              rw [hdrop]
            · have hw' : ¬ w + 1 ≤ (b :: bs).length := by rw [hlb]; exact hw
              rw [if_neg hw, if_neg hw']
              simp
        | err e =>
          simp only [sendOrDieMemAux, sendOrDieAux]
          by_cases he : e = Errno.EINTR
          · rw [if_pos he, if_pos he, ih _ _ _ _ hlen, hcons]
          · rw [if_neg he, if_neg he]
            simp

/-- The memory-level and span-level embeddings of `send_or_die` are
the same function: when the pointer and length describe a span inside
the memory, the memory-level run is exactly the span-level run on
`(mem.drop ptr).take len`, with the memory carried along. -/
lemma send_or_die_mem_agrees (fd : Nat) (mem : List Nat) (ptr len : Nat)
    (os : List SendRes) (h : ptr + len ≤ mem.length) :
    send_or_die_mem fd mem ptr len os =
      (send_or_die fd ((mem.drop ptr).take len) os).map (fun o => (o, mem)) :=
  sendOrDieMemAux_agrees fd mem os ptr len [] 0 h

/-- C10: the Reliable Writer never modifies the caller's memory — any
run of `send_or_die` over a memory that ends, normally or through the
diagnostic exit, leaves every byte of that memory (the given span and
everything else) exactly as it was; the loop only reads the span and
advances its local pointer and length. -/
theorem send_or_die_does_not_modify_buffer (fd : Nat) (mem : List Nat)
    (ptr len : Nat) (os : List SendRes) (out : Outcome) (mem' : List Nat)
    (h : send_or_die_mem fd mem ptr len os = some (out, mem')) :
    mem' = mem :=
  sendOrDieMemAux_frame fd mem os ptr len [] 0 out mem' h

theorem send_or_die_does_not_modify_buffer_witness :
    ([1, 2, 3] : List Nat) = [1, 2, 3] :=
  send_or_die_does_not_modify_buffer 7 [1, 2, 3] 0 3 [.ok 3]
    (.returned [1, 2, 3] 1) [1, 2, 3] (by decide)

end Cu2t
